import Mathlib

/-!
Shallow embedding of the navigation-policy composition framework of the
acts-org/acts-core examples subsystem, and of the material-recording example
script. The framework itself (navigation policy factory, the three policy
variants, the spatial bin index and the composite navigation policy) is not
present in the inspected source tree; only its Python tests and example
scripts are. The framework definitions below are therefore modelled from the
specification document, as marked on each definition; the material-recording
embedding is translated directly from the Python source file
Examples/Scripts/Python/material_recording.py.
-/

namespace ActsNav

/-- A surface: a geometric element identified by an id and carrying its
projected 2D local coordinates. The specification leaves the exact
projection variant-specific, requiring only a deterministic, stable function
of the surface position; the embedding records the projected pair directly
on the surface. -/
structure Surface where
  sid : Nat
  pos0 : ℚ
  pos1 : ℚ
deriving DecidableEq

/-- A volume: an ordered list of sensitive surfaces and an ordered list of
portal surfaces. -/
structure Volume where
  surfaces : List Surface
  portals : List Surface
deriving DecidableEq

/-- Modelled from the spec: the layer type of the surface-array navigation
policy configuration, selecting the 2D projection used for binning. The
C++ implementation of SurfaceArrayNavigationPolicy is not in the inspected
sources. -/
inductive LayerType where
  | Plane
  | Disc
  | Cylinder
deriving DecidableEq

/-- Modelled from the spec: the configuration of the surface-array
navigation policy, a layer type and the grid resolution (bins) along the
two local binning axes. -/
structure SurfaceArrayConfig where
  layerType : LayerType
  bins0 : Nat
  bins1 : Nat
deriving DecidableEq

/-- Modelled from the spec: the policy variant identity, the discriminator
used by the factory to enforce at-most-one registration per type. -/
inductive PolicyIdentity where
  | TryAllPortal
  | TryAllSurface
  | SurfaceArray
deriving DecidableEq

/-- Modelled from the spec: a registration, an identity together with its
variant-specific configuration. Only the surface-array variant carries a
configuration; the specification makes supplying it a caller contract, which
the embedding enforces by construction. -/
inductive Registration where
  | tryAllPortal
  | tryAllSurface
  | surfaceArray (cfg : SurfaceArrayConfig)
deriving DecidableEq

/-- The policy identity of a registration. -/
def Registration.identity : Registration → PolicyIdentity
  | .tryAllPortal => .TryAllPortal
  | .tryAllSurface => .TryAllSurface
  | .surfaceArray _ => .SurfaceArray

/-- Modelled from the spec: the two factory error kinds, both detected
synchronously at build time. -/
inductive FactoryError where
  | DuplicatePolicy
  | EmptyFactory
deriving DecidableEq

/-- Modelled from the spec: the navigation policy factory, an ordered
sequence of registrations, unique by identity. -/
structure NavigationPolicyFactory where
  registrations : List Registration
deriving DecidableEq

/-- The identities registered in a factory, in registration order. -/
def NavigationPolicyFactory.identities (f : NavigationPolicyFactory) :
    List PolicyIdentity :=
  f.registrations.map Registration.identity

/-- Modelled from the spec: make returns a new factory in the Empty state
(no registrations). -/
def NavigationPolicyFactory.make : NavigationPolicyFactory :=
  { registrations := [] }

/-- Modelled from the spec: one add call, returning the factory state after
the call together with the error raised, if any. Registering an identity
already present fails with DuplicatePolicy and leaves the registration list
unchanged; otherwise the registration is appended. -/
def NavigationPolicyFactory.addCall (f : NavigationPolicyFactory)
    (r : Registration) : NavigationPolicyFactory × Option FactoryError :=
  if f.registrations.any (fun r' => r'.identity = r.identity) then
    (f, some .DuplicatePolicy)
  else
    ({ registrations := f.registrations ++ [r] }, none)

/-- Modelled from the spec: add as a fallible operation returning either
the extended factory (for fluent chaining) or the error. -/
def NavigationPolicyFactory.add (f : NavigationPolicyFactory)
    (r : Registration) : Except FactoryError NavigationPolicyFactory :=
  match f.addCall r with
  | (_, some e) => .error e
  | (f', none) => .ok f'

/-- A sequence of add calls, failing at the first add that fails. -/
def addAll (f : NavigationPolicyFactory) :
    List Registration → Except FactoryError NavigationPolicyFactory
  | [] => .ok f
  | r :: rest => (f.add r).bind (fun f' => addAll f' rest)

/-- Minimum of a nonempty list of rationals (0 on the empty list). -/
def qmin : List ℚ → ℚ
  | [] => 0
  | x :: xs => xs.foldl min x

/-- Maximum of a nonempty list of rationals (0 on the empty list). -/
def qmax : List ℚ → ℚ
  | [] => 0
  | x :: xs => xs.foldl max x

/-- Modelled from the spec: the bin index along one axis. The axis extent
from lo to hi is divided into n equal-width cells; a coordinate is mapped
to the cell containing it, with half-open cells except the last, and
out-of-range coordinates clamp to the nearest edge cell. A degenerate
extent maps everything to cell 0. -/
def binIndexQ (lo hi : ℚ) (n : Nat) (x : ℚ) : Nat :=
  if hi ≤ lo then 0
  else min (Int.toNat ⌊(x - lo) * n / (hi - lo)⌋) (n - 1)

/-- Modelled from the spec: the spatial bin index of the surface-array
variant, a 2D grid over the projected local frame, built once from the
member surface list, holding the grid resolution and the bounding extent
of the projected positions. -/
structure SpatialBinIndex where
  n0 : Nat
  n1 : Nat
  lo0 : ℚ
  hi0 : ℚ
  lo1 : ℚ
  hi1 : ℚ
  surfaces : List Surface
deriving DecidableEq

/-- Modelled from the spec: construction of the spatial bin index computes
the bounding extent of all member surfaces projected coordinates and stores
the configured grid resolution. -/
def buildIndex (cfg : SurfaceArrayConfig) (ss : List Surface) :
    SpatialBinIndex :=
  { n0 := cfg.bins0
    n1 := cfg.bins1
    lo0 := qmin (ss.map Surface.pos0)
    hi0 := qmax (ss.map Surface.pos0)
    lo1 := qmin (ss.map Surface.pos1)
    hi1 := qmax (ss.map Surface.pos1)
    surfaces := ss }

/-- The cell a surface is assigned to: the pair of bin indices of its
projected coordinates. -/
def SpatialBinIndex.cellOf (idx : SpatialBinIndex) (s : Surface) :
    Nat × Nat :=
  (binIndexQ idx.lo0 idx.hi0 idx.n0 s.pos0,
   binIndexQ idx.lo1 idx.hi1 idx.n1 s.pos1)

/-- The member surfaces assigned to a given grid cell. -/
def SpatialBinIndex.cellSurfaces (idx : SpatialBinIndex) (i j : Nat) :
    List Surface :=
  idx.surfaces.filter (fun s => idx.cellOf s = (i, j))

/-- The in-grid immediate neighborhood of a bin index along one axis:
the indices within distance one that fall inside the grid. -/
def axisNeighbors (i n : Nat) : List Nat :=
  (List.range n).filter (fun i' => i - 1 ≤ i' ∧ i' ≤ i + 1)

/-- Modelled from the spec: a spatial bin index query projects the query
point, resolves its (clamped) containing cell, and returns the surfaces of
that cell and its immediate in-grid neighbors along both axes, neighbors
outside the grid omitted. -/
def SpatialBinIndex.query (idx : SpatialBinIndex) (p0 p1 : ℚ) :
    List Surface :=
  (axisNeighbors (binIndexQ idx.lo0 idx.hi0 idx.n0 p0) idx.n0).flatMap
    (fun i' =>
      (axisNeighbors (binIndexQ idx.lo1 idx.hi1 idx.n1 p1) idx.n1).flatMap
        (fun j' => idx.cellSurfaces i' j'))

/-- Clamp a coordinate into the closed extent from lo to hi. -/
def clampQ (lo hi x : ℚ) : ℚ := max lo (min x hi)

/-- The width of one grid cell along an axis divided into n equal cells. -/
def cellWidth (lo hi : ℚ) (n : Nat) : ℚ := (hi - lo) / n

/-- Membership of a coordinate in cell i of an axis divided into n
equal-width cells: the half-open interval from lo plus i widths
(inclusive) to lo plus i plus one widths (exclusive), except the last
cell, which is closed at hi. -/
def inCell (lo hi : ℚ) (n i : Nat) (x : ℚ) : Prop :=
  lo + i * cellWidth lo hi n ≤ x ∧
    (if i + 1 = n then x ≤ hi else x < lo + (i + 1) * cellWidth lo hi n)

instance (lo hi : ℚ) (n i : Nat) (x : ℚ) : Decidable (inCell lo hi n i x) := by
  unfold inCell
  infer_instance

/-- Modelled from the spec: an instantiated policy variant bound to a
volume. The surface-array instance owns its spatial bin index, built once
at instantiation. -/
inductive PolicyInstance where
  | tryAllPortal
  | tryAllSurface
  | surfaceArray (idx : SpatialBinIndex)
deriving DecidableEq

/-- Modelled from the spec: instantiating a registration against a target
volume. The surface-array variant builds its spatial bin index from the
volume surface list. -/
def instantiate (v : Volume) : Registration → PolicyInstance
  | .tryAllPortal => .tryAllPortal
  | .tryAllSurface => .tryAllSurface
  | .surfaceArray cfg => .surfaceArray (buildIndex cfg v.surfaces)

/-- A query: a projected query point and a direction. -/
structure NavQuery where
  p0 : ℚ
  p1 : ℚ
  d0 : ℚ
  d1 : ℚ
deriving DecidableEq

/-- Modelled from the spec: the query response of a single policy variant.
The try-all-portal variant returns the full ordered portal list of the
owning volume, the try-all-surface variant the full ordered surface list,
both regardless of query point and direction; the surface-array variant
queries its spatial bin index at the projected point. -/
def instanceQuery (p : PolicyInstance) (v : Volume) (q : NavQuery) :
    List Surface :=
  match p with
  | .tryAllPortal => v.portals
  | .tryAllSurface => v.surfaces
  | .surfaceArray idx => idx.query q.p0 q.p1

/-- Modelled from the spec: the composite navigation policy, holding the
owning volume and the ordered list of instantiated sub-policies. -/
structure CompositeNavigationPolicy where
  volume : Volume
  subPolicies : List PolicyInstance
deriving DecidableEq

/-- Modelled from the spec: finalize instantiates each registration against
the volume, in registration order; it fails with EmptyFactory when the
registration list is empty, and otherwise wraps the instances in a
composite navigation policy. -/
def NavigationPolicyFactory.finalize (f : NavigationPolicyFactory)
    (v : Volume) : Except FactoryError CompositeNavigationPolicy :=
  if f.registrations = [] then .error .EmptyFactory
  else .ok { volume := v, subPolicies := f.registrations.map (instantiate v) }

/-- Modelled from the spec: the composite query invokes every sub-policy
query in registration order and concatenates the results in that order,
without deduplication. -/
def compositeQuery (subs : List PolicyInstance) (v : Volume) (q : NavQuery) :
    List Surface :=
  match subs with
  | [] => []
  | p :: rest => instanceQuery p v q ++ compositeQuery rest v q

/-- Modelled from the spec: the runtime candidates operation on a built
composite, presented with explicit state passing: it returns the candidate
list together with the composite state after the call. Queries are pure
reads of immutable state, so the state after the call is the state before
it. -/
def CompositeNavigationPolicy.candidates (c : CompositeNavigationPolicy)
    (q : NavQuery) : List Surface × CompositeNavigationPolicy :=
  (compositeQuery c.subPolicies c.volume q, c)

/-- Python exception classes observed at the binding boundary. -/
inductive PyException where
  | RuntimeError
  | ValueError
deriving DecidableEq

/-- Modelled from the spec: the mapping of the two factory error kinds to
Python exception types at the public binding layer, which is not in the
inspected sources; the mapping is fixed by the expectations of the test
file Examples/Python/tests/test_navigation.py, where building an empty
factory raises RuntimeError and a duplicate add raises ValueError. -/
def pyExceptionOf : FactoryError → PyException
  | .EmptyFactory => .RuntimeError
  | .DuplicatePolicy => .ValueError

end ActsNav

namespace MaterialRecording

/-- An abstraction of the sequencer assembled by the material-recording
script: its event count and thread count, and the names of the readers,
algorithms and writers added to it, in order. -/
structure Sequencer where
  events : Nat
  numThreads : Int
  readers : List String
  algorithms : List String
  writers : List String
deriving DecidableEq

/-- The result of one call of runGeantinoRecording: whether the call
emitted the already-ran warning, the value of the module-global
executed flag after the call, and the sequencer the call returns. -/
structure GeantinoRunResult where
  warned : Bool
  executedFlag : Bool
  seq : Sequencer
deriving DecidableEq

/-- Embedding of runGeantinoRecording from
Examples/Scripts/Python/material_recording.py. The module-global flag is
passed in explicitly; the call warns exactly when the flag is already set,
unconditionally sets the flag, then builds the sequencer (the supplied one,
or a fresh one with 10 events and 1 thread), adds the event-generator
reader, the Geant4 simulation algorithm and the material-track writer, and
returns it. No path raises. -/
def runGeantinoRecording (executedBefore : Bool) (s : Option Sequencer) :
    GeantinoRunResult :=
  let warned := executedBefore
  let seq0 := s.getD
    { events := 10, numThreads := 1, readers := [], algorithms := []
      writers := [] }
  let seq1 := { seq0 with readers := seq0.readers ++ ["EventGenerator"] }
  let seq2 :=
    { seq1 with algorithms := seq1.algorithms ++ ["Geant4Simulation"] }
  let seq3 :=
    { seq2 with writers := seq2.writers ++ ["RootMaterialTrackWriter"] }
  { warned := warned, executedFlag := true, seq := seq3 }

/-- The module-global flag after a sequence of n calls, starting from the
initial value false set at import time. -/
def flagAfter : Nat → Bool
  | 0 => false
  | n + 1 => (runGeantinoRecording (flagAfter n) none).executedFlag

end MaterialRecording

namespace ActsNav

lemma identity_mem_iff (f : NavigationPolicyFactory) (r : Registration) :
    (f.registrations.any (fun r' => r'.identity = r.identity)) = true ↔
      r.identity ∈ f.identities := by
  simp only [NavigationPolicyFactory.identities, List.any_eq_true,
    List.mem_map, decide_eq_true_eq]

lemma addCall_of_mem (f : NavigationPolicyFactory) (r : Registration)
    (h : r.identity ∈ f.identities) :
    f.addCall r = (f, some .DuplicatePolicy) := by
  unfold NavigationPolicyFactory.addCall
  rw [if_pos ((identity_mem_iff f r).mpr h)]

lemma addCall_of_not_mem (f : NavigationPolicyFactory) (r : Registration)
    (h : r.identity ∉ f.identities) :
    f.addCall r = ({ registrations := f.registrations ++ [r] }, none) := by
  unfold NavigationPolicyFactory.addCall
  rw [if_neg (fun hc => h ((identity_mem_iff f r).mp hc))]

lemma add_of_mem (f : NavigationPolicyFactory) (r : Registration)
    (h : r.identity ∈ f.identities) :
    f.add r = .error .DuplicatePolicy := by
  unfold NavigationPolicyFactory.add
  rw [addCall_of_mem f r h]

lemma add_of_not_mem (f : NavigationPolicyFactory) (r : Registration)
    (h : r.identity ∉ f.identities) :
    f.add r = .ok { registrations := f.registrations ++ [r] } := by
  unfold NavigationPolicyFactory.add
  rw [addCall_of_not_mem f r h]

lemma identities_append (f : NavigationPolicyFactory) (r : Registration) :
    ({ registrations := f.registrations ++ [r] } :
        NavigationPolicyFactory).identities =
      f.identities ++ [r.identity] := by
  simp [NavigationPolicyFactory.identities]

lemma addAll_ok (regs : List Registration) :
    ∀ f : NavigationPolicyFactory,
      (regs.map Registration.identity).Nodup →
      (∀ r ∈ regs, r.identity ∉ f.identities) →
      addAll f regs = .ok { registrations := f.registrations ++ regs } := by
  induction regs with
  | nil => intro f _ _; simp [addAll]
  | cons r rest ih =>
    intro f hnd hmem
    have hnd' : r.identity ∉ rest.map Registration.identity ∧
        (rest.map Registration.identity).Nodup := by
      simpa [List.nodup_cons] using hnd
    have hr : r.identity ∉ f.identities := hmem r (List.mem_cons_self r rest)
    rw [addAll, add_of_not_mem f r hr]
    have h2 : ∀ r' ∈ rest, r'.identity ∉
        ({ registrations := f.registrations ++ [r] } :
          NavigationPolicyFactory).identities := by
      intro r' hr'
      rw [identities_append]
      simp only [List.mem_append, List.mem_singleton]
      push_neg
      refine ⟨hmem r' (List.mem_cons_of_mem r hr'), fun he => ?_⟩
      exact hnd'.1 (List.mem_map.mpr ⟨r', hr', he⟩)
    have hrec := ih { registrations := f.registrations ++ [r] } hnd'.2 h2
    simp only [Except.bind, hrec]
    simp

lemma addAll_nodup (regs : List Registration) :
    ∀ f f' : NavigationPolicyFactory,
      f.identities.Nodup → addAll f regs = .ok f' → f'.identities.Nodup := by
  induction regs with
  | nil =>
    intro f f' h he
    simp only [addAll, Except.ok.injEq] at he
    exact he ▸ h
  | cons r rest ih =>
    intro f f' h he
    rw [addAll] at he
    by_cases hr : r.identity ∈ f.identities
    · rw [add_of_mem f r hr] at he
      simp [Except.bind] at he
    · rw [add_of_not_mem f r hr] at he
      simp only [Except.bind] at he
      refine ih _ f' ?_ he
      rw [identities_append]
      simp [List.nodup_append, h, hr]

/-- C1 (amended to nonempty sequences): for every nonempty sequence of
registrations with pairwise-distinct policy identities, all add calls on a
fresh factory succeed, and finalize succeeds for every volume, returning a
composite whose sub-policy list is the instantiation of the registrations
in registration order, so its count equals the number of registrations. -/
theorem factory_distinct_finalize (regs : List Registration) (v : Volume)
    (hne : regs ≠ []) (hnd : (regs.map Registration.identity).Nodup) :
    addAll NavigationPolicyFactory.make regs =
      .ok { registrations := regs } ∧
    ({ registrations := regs } : NavigationPolicyFactory).finalize v =
      .ok { volume := v, subPolicies := regs.map (instantiate v) } ∧
    (regs.map (instantiate v)).length = regs.length := by
  have h1 := addAll_ok regs NavigationPolicyFactory.make hnd
    (by intro r _
        simp [NavigationPolicyFactory.make, NavigationPolicyFactory.identities])
  refine ⟨by simpa [NavigationPolicyFactory.make] using h1, ?_, by simp⟩
  simp [NavigationPolicyFactory.finalize, hne]

/-- C1 counterexample to the claim as stated: the empty add-call sequence
has pairwise-distinct identities and all of its (zero) add calls succeed,
yet finalize fails with EmptyFactory instead of returning a composite. -/
theorem factory_distinct_finalize_cex :
    (([] : List Registration).map Registration.identity).Nodup ∧
    addAll NavigationPolicyFactory.make [] =
      .ok NavigationPolicyFactory.make ∧
    NavigationPolicyFactory.make.finalize { surfaces := [], portals := [] } =
      .error .EmptyFactory := by
  exact ⟨by decide, rfl, rfl⟩

/-- Witness for factory_distinct_finalize at a concrete two-registration
list and a concrete volume. -/
theorem factory_distinct_finalize_witness :
    ([Registration.tryAllPortal, Registration.tryAllSurface] ≠
        ([] : List Registration)) ∧
    (([Registration.tryAllPortal, Registration.tryAllSurface].map
        Registration.identity).Nodup) ∧
    (addAll NavigationPolicyFactory.make
        [Registration.tryAllPortal, Registration.tryAllSurface] =
      .ok { registrations :=
              [Registration.tryAllPortal, Registration.tryAllSurface] } ∧
     ({ registrations :=
          [Registration.tryAllPortal, Registration.tryAllSurface] } :
        NavigationPolicyFactory).finalize { surfaces := [], portals := [] } =
      .ok { volume := { surfaces := [], portals := [] },
            subPolicies :=
              [Registration.tryAllPortal, Registration.tryAllSurface].map
                (instantiate { surfaces := [], portals := [] }) } ∧
     ([Registration.tryAllPortal, Registration.tryAllSurface].map
        (instantiate { surfaces := [], portals := [] })).length =
       [Registration.tryAllPortal, Registration.tryAllSurface].length) :=
  ⟨by decide, by decide,
   factory_distinct_finalize
     [Registration.tryAllPortal, Registration.tryAllSurface]
     { surfaces := [], portals := [] } (by decide) (by decide)⟩

/-- C2: adding an already-registered policy identity fails with
DuplicatePolicy and leaves the registration list unchanged, and every
factory reachable from make by successful add calls has pairwise-distinct
registered identities, so a factory never holds two entries with the same
identity. -/
theorem add_duplicate_rejected :
    (∀ (f : NavigationPolicyFactory) (r : Registration),
        r.identity ∈ f.identities →
        f.addCall r = (f, some .DuplicatePolicy) ∧
        f.add r = .error .DuplicatePolicy) ∧
    (∀ (regs : List Registration) (f : NavigationPolicyFactory),
        addAll NavigationPolicyFactory.make regs = .ok f →
        f.identities.Nodup) := by
  constructor
  · intro f r h
    exact ⟨addCall_of_mem f r h, add_of_mem f r h⟩
  · intro regs f h
    exact addAll_nodup regs NavigationPolicyFactory.make f
      (by simp [NavigationPolicyFactory.make,
        NavigationPolicyFactory.identities]) h

/-- Witness for add_duplicate_rejected at a concrete factory holding one
try-all-portal registration. -/
theorem add_duplicate_rejected_witness :
    (Registration.tryAllPortal.identity ∈
        ({ registrations := [Registration.tryAllPortal] } :
          NavigationPolicyFactory).identities) ∧
    (({ registrations := [Registration.tryAllPortal] } :
        NavigationPolicyFactory).addCall Registration.tryAllPortal =
      ({ registrations := [Registration.tryAllPortal] },
        some .DuplicatePolicy) ∧
     ({ registrations := [Registration.tryAllPortal] } :
        NavigationPolicyFactory).add Registration.tryAllPortal =
      .error .DuplicatePolicy) ∧
    ({ registrations := [Registration.tryAllPortal] } :
        NavigationPolicyFactory).identities.Nodup :=
  ⟨by decide,
   add_duplicate_rejected.1 _ _ (by decide),
   add_duplicate_rejected.2 [Registration.tryAllPortal] _ rfl⟩

/-- C3: finalize on a factory with zero registrations fails with
EmptyFactory for every volume; no composite is produced. -/
theorem finalize_empty_fails (f : NavigationPolicyFactory) (v : Volume)
    (h : f.registrations = []) :
    f.finalize v = .error .EmptyFactory := by
  simp [NavigationPolicyFactory.finalize, h]

/-- Witness for finalize_empty_fails at the fresh factory and a concrete
volume. -/
theorem finalize_empty_fails_witness :
    NavigationPolicyFactory.make.registrations = [] ∧
    NavigationPolicyFactory.make.finalize { surfaces := [], portals := [] } =
      .error .EmptyFactory :=
  ⟨rfl, finalize_empty_fails NavigationPolicyFactory.make
    { surfaces := [], portals := [] } rfl⟩

/-- C9: at the Python binding boundary the two factory error kinds are
distinguishable by exception type: finalizing an empty factory raises
RuntimeError, adding an already-registered identity raises ValueError, and
the two exception types are distinct. -/
theorem python_exception_types :
    (∀ (f : NavigationPolicyFactory) (v : Volume), f.registrations = [] →
        f.finalize v = .error FactoryError.EmptyFactory ∧
        pyExceptionOf FactoryError.EmptyFactory = PyException.RuntimeError) ∧
    (∀ (f : NavigationPolicyFactory) (r : Registration),
        r.identity ∈ f.identities →
        f.add r = .error FactoryError.DuplicatePolicy ∧
        pyExceptionOf FactoryError.DuplicatePolicy =
          PyException.ValueError) ∧
    PyException.RuntimeError ≠ PyException.ValueError := by
  refine ⟨?_, ?_, by decide⟩
  · intro f v h
    exact ⟨by simp [NavigationPolicyFactory.finalize, h], rfl⟩
  · intro f r h
    exact ⟨add_of_mem f r h, rfl⟩

/-- Witness for python_exception_types at a concrete empty factory and a
concrete duplicate add. -/
theorem python_exception_types_witness :
    (NavigationPolicyFactory.make.registrations = [] ∧
      NavigationPolicyFactory.make.finalize
          { surfaces := [], portals := [] } =
        .error FactoryError.EmptyFactory ∧
      pyExceptionOf FactoryError.EmptyFactory = PyException.RuntimeError) ∧
    (Registration.tryAllSurface.identity ∈
        ({ registrations := [Registration.tryAllSurface] } :
          NavigationPolicyFactory).identities ∧
      ({ registrations := [Registration.tryAllSurface] } :
          NavigationPolicyFactory).add Registration.tryAllSurface =
        .error FactoryError.DuplicatePolicy ∧
      pyExceptionOf FactoryError.DuplicatePolicy = PyException.ValueError) :=
  ⟨⟨rfl, python_exception_types.1 NavigationPolicyFactory.make
      { surfaces := [], portals := [] } rfl⟩,
   ⟨by decide, python_exception_types.2.1 _ _ (by decide)⟩⟩

lemma compositeQuery_append (xs ys : List PolicyInstance) (v : Volume)
    (q : NavQuery) :
    compositeQuery (xs ++ ys) v q =
      compositeQuery xs v q ++ compositeQuery ys v q := by
  induction xs with
  | nil => simp [compositeQuery]
  | cons p rest ih => simp [compositeQuery, ih]

lemma compositeQuery_eq_flatten (subs : List PolicyInstance) (v : Volume)
    (q : NavQuery) :
    compositeQuery subs v q =
      (subs.map (fun p => instanceQuery p v q)).flatten := by
  induction subs with
  | nil => simp [compositeQuery]
  | cons p rest ih => simp [compositeQuery, ih]

/-- C4: the composite query equals the concatenation, in registration
order, of the sub-policy query results, and it does not deduplicate: a
surface returned by two different sub-policies appears at least twice in
the composite response. -/
theorem composite_concat_no_dedup :
    (∀ (subs : List PolicyInstance) (v : Volume) (q : NavQuery),
        compositeQuery subs v q =
          (subs.map (fun p => instanceQuery p v q)).flatten) ∧
    (∀ (xs ys zs : List PolicyInstance) (a b : PolicyInstance)
        (v : Volume) (q : NavQuery) (s : Surface),
        s ∈ instanceQuery a v q → s ∈ instanceQuery b v q →
        2 ≤ (compositeQuery (xs ++ a :: (ys ++ b :: zs)) v q).count s) := by
  constructor
  · exact compositeQuery_eq_flatten
  · intro xs ys zs a b v q s ha hb
    have h1 : 0 < (instanceQuery a v q).count s := List.count_pos_iff.mpr ha
    have h2 : 0 < (instanceQuery b v q).count s := List.count_pos_iff.mpr hb
    have e : compositeQuery (xs ++ a :: (ys ++ b :: zs)) v q =
        compositeQuery xs v q ++ (instanceQuery a v q ++
          (compositeQuery ys v q ++ (instanceQuery b v q ++
            compositeQuery zs v q))) := by
      rw [compositeQuery_append]
      simp [compositeQuery, compositeQuery_append]
    rw [e]
    simp only [List.count_append]
    omega

/-- Witness for composite_concat_no_dedup: a composite of two sub-policies
both returning the same surface yields that surface twice. -/
theorem composite_concat_no_dedup_witness :
    ((⟨0, 0, 0⟩ : Surface) ∈ instanceQuery .tryAllSurface
        { surfaces := [⟨0, 0, 0⟩], portals := [] } ⟨0, 0, 0, 0⟩) ∧
    2 ≤ (compositeQuery
        ([] ++ .tryAllSurface :: ([] ++ .tryAllSurface :: []))
        { surfaces := [⟨0, 0, 0⟩], portals := [] } ⟨0, 0, 0, 0⟩).count
        ⟨0, 0, 0⟩ :=
  ⟨by decide,
   composite_concat_no_dedup.2 [] [] [] .tryAllSurface .tryAllSurface
     { surfaces := [⟨0, 0, 0⟩], portals := [] } ⟨0, 0, 0, 0⟩ ⟨0, 0, 0⟩
     (by decide) (by decide)⟩

/-- C7: the try-all-portal instance answers every query with the full
ordered portal list of the owning volume and the try-all-surface instance
with the full ordered surface list; both responses are constant in the
query point and direction. -/
theorem tryAll_variants_constant (v : Volume) (q q' : NavQuery) :
    instanceQuery (instantiate v .tryAllPortal) v q = v.portals ∧
    instanceQuery (instantiate v .tryAllSurface) v q = v.surfaces ∧
    instanceQuery (instantiate v .tryAllPortal) v q =
      instanceQuery (instantiate v .tryAllPortal) v q' ∧
    instanceQuery (instantiate v .tryAllSurface) v q =
      instanceQuery (instantiate v .tryAllSurface) v q' :=
  ⟨rfl, rfl, rfl, rfl⟩

/-- C8: in the explicit-state presentation of the candidates operation the
composite query is deterministic and side-effect-free: a call returns the
composite unchanged (sub-policies and volume included), and a second call
with the same query on the returned state yields an equal candidate
sequence and again the unchanged state. -/
theorem composite_query_pure (c : CompositeNavigationPolicy) (q : NavQuery) :
    (c.candidates q).2 = c ∧
    (c.candidates q).2.subPolicies = c.subPolicies ∧
    (c.candidates q).2.volume = c.volume ∧
    ((c.candidates q).2.candidates q).1 = (c.candidates q).1 ∧
    ((c.candidates q).2.candidates q).2 = c :=
  ⟨rfl, rfl, rfl, rfl, rfl⟩

end ActsNav

namespace MaterialRecording

/-- C10: the ran-once guard does not prevent re-running: every call leaves
the module-global executed flag true and the flag is never reset, a call
with the flag already set emits the warning while a first call does not,
the sequencer built and returned does not depend on the flag, and a call
without a supplied sequencer returns the fully assembled default
sequencer. -/
theorem geantino_guard (b : Bool) (s : Option Sequencer) :
    (runGeantinoRecording b s).executedFlag = true ∧
    (runGeantinoRecording true s).warned = true ∧
    (runGeantinoRecording false s).warned = false ∧
    (runGeantinoRecording b s).seq = (runGeantinoRecording false s).seq ∧
    (∀ n : Nat, flagAfter (n + 1) = true) ∧
    (runGeantinoRecording b none).seq =
      { events := 10, numThreads := 1, readers := ["EventGenerator"],
        algorithms := ["Geant4Simulation"],
        writers := ["RootMaterialTrackWriter"] } :=
  ⟨rfl, rfl, rfl, rfl, fun _ => rfl, rfl⟩

end MaterialRecording

namespace ActsNav

lemma foldl_min_le (l : List ℚ) :
    ∀ a x : ℚ, x ∈ a :: l → l.foldl min a ≤ x := by
  induction l with
  | nil =>
    intro a x hx
    simp at hx
    simp [hx]
  | cons b t ih =>
    intro a x hx
    simp only [List.foldl_cons]
    have hhead : t.foldl min (min a b) ≤ min a b :=
      ih (min a b) (min a b) (List.mem_cons_self _ _)
    rcases List.mem_cons.mp hx with h | h
    · subst h
      exact le_trans hhead (min_le_left _ _)
    · rcases List.mem_cons.mp h with h' | h'
      · subst h'
        exact le_trans hhead (min_le_right _ _)
      · exact ih (min a b) x (List.mem_cons_of_mem _ h')

lemma le_foldl_max (l : List ℚ) :
    ∀ a x : ℚ, x ∈ a :: l → x ≤ l.foldl max a := by
  induction l with
  | nil =>
    intro a x hx
    simp at hx
    simp [hx]
  | cons b t ih =>
    intro a x hx
    simp only [List.foldl_cons]
    have hhead : max a b ≤ t.foldl max (max a b) :=
      ih (max a b) (max a b) (List.mem_cons_self _ _)
    rcases List.mem_cons.mp hx with h | h
    · subst h
      exact le_trans (le_max_left _ _) hhead
    · rcases List.mem_cons.mp h with h' | h'
      · subst h'
        exact le_trans (le_max_right _ _) hhead
      · exact ih (max a b) x (List.mem_cons_of_mem _ h')

lemma qmin_le (l : List ℚ) (x : ℚ) (h : x ∈ l) : qmin l ≤ x := by
  cases l with
  | nil => cases h
  | cons a t => exact foldl_min_le t a x h

lemma le_qmax (l : List ℚ) (x : ℚ) (h : x ∈ l) : x ≤ qmax l := by
  cases l with
  | nil => cases h
  | cons a t => exact le_foldl_max t a x h

lemma binIndexQ_lt (lo hi x : ℚ) (n : Nat) (hn : 0 < n) :
    binIndexQ lo hi n x < n := by
  unfold binIndexQ
  split
  · exact hn
  · have h := Nat.min_le_right
      (Int.toNat ⌊(x - lo) * n / (hi - lo)⌋) (n - 1)
    omega

lemma binIndexQ_inCell (lo hi x : ℚ) (n : Nat) (hlh : lo < hi) (hn : 0 < n)
    (hx1 : lo ≤ x) (hx2 : x ≤ hi) :
    inCell lo hi n (binIndexQ lo hi n x) x := by
  have hd : (0:ℚ) < hi - lo := by linarith
  have hnQ : (0:ℚ) < (n:ℚ) := by exact_mod_cast hn
  have hw : 0 < cellWidth lo hi n := div_pos hd hnQ
  set t : ℚ := (x - lo) * n / (hi - lo) with ht
  have ht0 : 0 ≤ t := by
    apply div_nonneg _ hd.le
    exact mul_nonneg (by linarith) hnQ.le
  set k : Int := ⌊t⌋ with hk
  have hk0 : 0 ≤ k := Int.floor_nonneg.mpr ht0
  have hkt : (k:ℚ) ≤ t := Int.floor_le t
  have htk : t < k + 1 := Int.lt_floor_add_one t
  have hbin : binIndexQ lo hi n x = min k.toNat (n - 1) := by
    unfold binIndexQ
    rw [if_neg (not_le.mpr hlh)]
  set i : Nat := min k.toNat (n - 1) with hidef
  rw [hbin]
  have h1 : i ≤ k.toNat := Nat.min_le_left _ _
  have hiZ : ((i:Int)) ≤ k := by
    rw [← Int.toNat_of_nonneg hk0]
    exact_mod_cast h1
  have hiw : (i:ℚ) ≤ t := le_trans (by exact_mod_cast hiZ) hkt
  have htw : t * cellWidth lo hi n = x - lo := by
    rw [ht]
    unfold cellWidth
    field_simp
  unfold inCell
  constructor
  · have hmul : (i:ℚ) * cellWidth lo hi n ≤ t * cellWidth lo hi n :=
      mul_le_mul_of_nonneg_right hiw hw.le
    rw [htw] at hmul
    linarith
  · split_ifs with hcase
    · exact hx2
    · have hile : i ≤ n - 1 := Nat.min_le_right _ _
      have hne : i ≠ n - 1 := by omega
      have hik : i = k.toNat := by
        rcases le_or_lt k.toNat (n - 1) with hle | hgt
        · rw [hidef]
          exact min_eq_left hle
        · exact absurd (min_eq_right hgt.le) (hidef ▸ hne)
      have hkZ : (i:Int) = k := by
        rw [← Int.toNat_of_nonneg hk0]
        exact_mod_cast hik
      have hkQ : (i:ℚ) = (k:ℚ) := by exact_mod_cast hkZ
      have htlt : t < (i:ℚ) + 1 := by
        rw [hkQ]
        exact_mod_cast htk
      have hlt : t * cellWidth lo hi n < ((i:ℚ) + 1) * cellWidth lo hi n :=
        mul_lt_mul_of_pos_right htlt hw
      rw [htw] at hlt
      linarith

lemma binIndexQ_le_low (lo hi x : ℚ) (n : Nat) (hx : x ≤ lo) :
    binIndexQ lo hi n x = 0 := by
  unfold binIndexQ
  split
  · rfl
  · rename_i hlt
    have hd : (0:ℚ) < hi - lo := by linarith [not_le.mp hlt]
    have hnum : (x - lo) * (n:ℚ) ≤ 0 :=
      mul_nonpos_iff.mpr (Or.inr ⟨by linarith, Nat.cast_nonneg n⟩)
    have ht : (x - lo) * (n:ℚ) / (hi - lo) ≤ 0 :=
      div_nonpos_iff.mpr (Or.inr ⟨hnum, hd.le⟩)
    rw [Int.toNat_of_nonpos (Int.floor_nonpos ht)]
    simp

lemma binIndexQ_ge_high (lo hi x : ℚ) (n : Nat) (hlh : lo < hi) (hn : 0 < n)
    (hx : hi ≤ x) : binIndexQ lo hi n x = n - 1 := by
  unfold binIndexQ
  rw [if_neg (not_le.mpr hlh)]
  have hd : (0:ℚ) < hi - lo := by linarith
  have ht : (n:ℚ) ≤ (x - lo) * n / (hi - lo) := by
    rw [le_div_iff₀ hd]
    have hxd : hi - lo ≤ x - lo := by linarith
    calc (n:ℚ) * (hi - lo) = (hi - lo) * n := by ring
    _ ≤ (x - lo) * n := mul_le_mul_of_nonneg_right hxd (Nat.cast_nonneg n)
  have hfl : (n:Int) ≤ ⌊(x - lo) * n / (hi - lo)⌋ :=
    Int.le_floor.mpr (by exact_mod_cast ht)
  have htn : n ≤ Int.toNat ⌊(x - lo) * n / (hi - lo)⌋ := by omega
  exact min_eq_right (by omega)

lemma binIndexQ_clamp (lo hi x : ℚ) (n : Nat) (hn : 0 < n) :
    binIndexQ lo hi n x = binIndexQ lo hi n (clampQ lo hi x) := by
  rcases le_or_lt hi lo with hle | hlh
  · unfold binIndexQ
    rw [if_pos hle, if_pos hle]
  · rcases le_or_lt x lo with h1 | h1
    · have hc : clampQ lo hi x = lo := by
        unfold clampQ
        rw [min_eq_left (by linarith), max_eq_left h1]
      rw [hc, binIndexQ_le_low lo hi x n h1, binIndexQ_le_low lo hi lo n le_rfl]
    · rcases le_or_lt x hi with h2 | h2
      · have hc : clampQ lo hi x = x := by
          unfold clampQ
          rw [min_eq_left h2, max_eq_right h1.le]
        rw [hc]
      · have hc : clampQ lo hi x = hi := by
          unfold clampQ
          rw [min_eq_right h2.le, max_eq_right hlh.le]
        rw [hc, binIndexQ_ge_high lo hi x n hlh hn h2.le,
          binIndexQ_ge_high lo hi hi n hlh hn le_rfl]

lemma inCell_disjoint (lo hi x : ℚ) (n : Nat) (hlh : lo < hi) (hn : 0 < n)
    {i j : Nat} (hij : i < j) (hjn : j < n)
    (h1 : inCell lo hi n i x) (h2 : inCell lo hi n j x) : False := by
  have hd : (0:ℚ) < hi - lo := by linarith
  have hnQ : (0:ℚ) < (n:ℚ) := by exact_mod_cast hn
  have hw : 0 < cellWidth lo hi n := div_pos hd hnQ
  unfold inCell at h1 h2
  rcases h1 with ⟨h1l, h1r⟩
  rcases h2 with ⟨h2l, h2r⟩
  by_cases hcase : i + 1 = n
  · omega
  · rw [if_neg hcase] at h1r
    have hle : ((i:ℚ) + 1) ≤ (j:ℚ) := by exact_mod_cast hij
    have hmono : ((i:ℚ) + 1) * cellWidth lo hi n ≤
        (j:ℚ) * cellWidth lo hi n :=
      mul_le_mul_of_nonneg_right hle hw.le
    linarith

lemma inCell_unique (lo hi x : ℚ) (n : Nat) (hlh : lo < hi) (hn : 0 < n)
    {i j : Nat} (hin : i < n) (hjn : j < n)
    (h1 : inCell lo hi n i x) (h2 : inCell lo hi n j x) : i = j := by
  rcases lt_trichotomy i j with h | h | h
  · exact absurd (inCell_disjoint lo hi x n hlh hn h hjn h1 h2) not_false
  · exact h
  · exact absurd (inCell_disjoint lo hi x n hlh hn h hin h2 h1) not_false

lemma flatMap_nil_of_all {α β : Type} (l : List α) (f : α → List β)
    (h : ∀ a ∈ l, f a = []) : l.flatMap f = [] := by
  induction l with
  | nil => rfl
  | cons a t ih =>
    rw [List.flatMap_cons, h a (List.mem_cons_self a t),
      ih (fun b hb => h b (List.mem_cons_of_mem a hb))]
    rfl

/-- C5: surface-array index construction over a non-empty surface list with
positive bin counts computes the bounding extent of all projected
positions, assigns every member surface to exactly one in-range cell, and,
whenever the extent along an axis is non-degenerate, the assigned cell is
the unique equal-width cell containing the coordinate, the cells being
half-open below the last, which is closed. -/
theorem surfaceArray_binning (cfg : SurfaceArrayConfig) (ss : List Surface)
    (s : Surface) (h0 : 0 < cfg.bins0) (h1 : 0 < cfg.bins1) (hs : s ∈ ss) :
    ((buildIndex cfg ss).lo0 ≤ s.pos0 ∧ s.pos0 ≤ (buildIndex cfg ss).hi0 ∧
     (buildIndex cfg ss).lo1 ≤ s.pos1 ∧ s.pos1 ≤ (buildIndex cfg ss).hi1) ∧
    ((buildIndex cfg ss).cellOf s).1 < cfg.bins0 ∧
    ((buildIndex cfg ss).cellOf s).2 < cfg.bins1 ∧
    (∀ i j, s ∈ (buildIndex cfg ss).cellSurfaces i j ↔
      (i, j) = (buildIndex cfg ss).cellOf s) ∧
    ((buildIndex cfg ss).lo0 < (buildIndex cfg ss).hi0 →
      inCell (buildIndex cfg ss).lo0 (buildIndex cfg ss).hi0 cfg.bins0
        ((buildIndex cfg ss).cellOf s).1 s.pos0 ∧
      ∀ i, i < cfg.bins0 →
        inCell (buildIndex cfg ss).lo0 (buildIndex cfg ss).hi0 cfg.bins0
          i s.pos0 → i = ((buildIndex cfg ss).cellOf s).1) ∧
    ((buildIndex cfg ss).lo1 < (buildIndex cfg ss).hi1 →
      inCell (buildIndex cfg ss).lo1 (buildIndex cfg ss).hi1 cfg.bins1
        ((buildIndex cfg ss).cellOf s).2 s.pos1 ∧
      ∀ j, j < cfg.bins1 →
        inCell (buildIndex cfg ss).lo1 (buildIndex cfg ss).hi1 cfg.bins1
          j s.pos1 → j = ((buildIndex cfg ss).cellOf s).2) := by
  have hlo0 : (buildIndex cfg ss).lo0 ≤ s.pos0 :=
    qmin_le (ss.map Surface.pos0) s.pos0 (List.mem_map_of_mem Surface.pos0 hs)
  have hhi0 : s.pos0 ≤ (buildIndex cfg ss).hi0 :=
    le_qmax (ss.map Surface.pos0) s.pos0 (List.mem_map_of_mem Surface.pos0 hs)
  have hlo1 : (buildIndex cfg ss).lo1 ≤ s.pos1 :=
    qmin_le (ss.map Surface.pos1) s.pos1 (List.mem_map_of_mem Surface.pos1 hs)
  have hhi1 : s.pos1 ≤ (buildIndex cfg ss).hi1 :=
    le_qmax (ss.map Surface.pos1) s.pos1 (List.mem_map_of_mem Surface.pos1 hs)
  have hr0 : ((buildIndex cfg ss).cellOf s).1 < cfg.bins0 :=
    binIndexQ_lt (buildIndex cfg ss).lo0 (buildIndex cfg ss).hi0 s.pos0
      cfg.bins0 h0
  have hr1 : ((buildIndex cfg ss).cellOf s).2 < cfg.bins1 :=
    binIndexQ_lt (buildIndex cfg ss).lo1 (buildIndex cfg ss).hi1 s.pos1
      cfg.bins1 h1
  refine ⟨⟨hlo0, hhi0, hlo1, hhi1⟩, hr0, hr1, ?_, ?_, ?_⟩
  · intro i j
    simp only [SpatialBinIndex.cellSurfaces, List.mem_filter,
      decide_eq_true_eq]
    constructor
    · intro hmem
      exact hmem.2.symm
    · intro he
      refine ⟨?_, he.symm⟩
      simpa [buildIndex] using hs
  · intro hlt
    refine ⟨binIndexQ_inCell _ _ _ _ hlt h0 hlo0 hhi0, ?_⟩
    intro i hin hcell
    exact inCell_unique (buildIndex cfg ss).lo0 (buildIndex cfg ss).hi0
      s.pos0 cfg.bins0 hlt h0 hin hr0 hcell
      (binIndexQ_inCell _ _ _ _ hlt h0 hlo0 hhi0)
  · intro hlt
    refine ⟨binIndexQ_inCell _ _ _ _ hlt h1 hlo1 hhi1, ?_⟩
    intro j hjn hcell
    exact inCell_unique (buildIndex cfg ss).lo1 (buildIndex cfg ss).hi1
      s.pos1 cfg.bins1 hlt h1 hjn hr1 hcell
      (binIndexQ_inCell _ _ _ _ hlt h1 hlo1 hhi1)

/-- Witness for surfaceArray_binning at a concrete two-surface list with a
two-by-two grid: the witness surface lands in an in-range cell. -/
theorem surfaceArray_binning_witness :
    (0 < 2 ∧ 0 < 2 ∧
      (⟨0, 0, 0⟩ : Surface) ∈ [(⟨0, 0, 0⟩ : Surface), ⟨1, 1, 1⟩]) ∧
    ((buildIndex { layerType := .Plane, bins0 := 2, bins1 := 2 }
        [⟨0, 0, 0⟩, ⟨1, 1, 1⟩]).cellOf ⟨0, 0, 0⟩).1 < 2 :=
  ⟨⟨by decide, by decide, by decide⟩,
   (surfaceArray_binning { layerType := .Plane, bins0 := 2, bins1 := 2 }
     [⟨0, 0, 0⟩, ⟨1, 1, 1⟩] ⟨0, 0, 0⟩ (by decide) (by decide)
     (by decide)).2.1⟩

/-- C6: queries on a built index are total: a query point is clamped into
the indexed extent, so an out-of-extent point returns the candidates of
the nearest edge cell neighborhood; a point at or below the lower edge
resolves to cell zero and one at or above the upper edge to the last cell;
a neighborhood of empty cells yields the empty candidate list rather than
an error; and the candidates operation of any composite returns a result
list for every query. -/
theorem query_total (idx : SpatialBinIndex) (p0 p1 : ℚ)
    (h0 : 0 < idx.n0) (h1 : 0 < idx.n1) :
    idx.query p0 p1 =
      idx.query (clampQ idx.lo0 idx.hi0 p0) (clampQ idx.lo1 idx.hi1 p1) ∧
    ((∀ i j,
        i ∈ axisNeighbors (binIndexQ idx.lo0 idx.hi0 idx.n0 p0) idx.n0 →
        j ∈ axisNeighbors (binIndexQ idx.lo1 idx.hi1 idx.n1 p1) idx.n1 →
        idx.cellSurfaces i j = []) → idx.query p0 p1 = []) ∧
    (p0 ≤ idx.lo0 → binIndexQ idx.lo0 idx.hi0 idx.n0 p0 = 0) ∧
    (idx.lo0 < idx.hi0 → idx.hi0 ≤ p0 →
      binIndexQ idx.lo0 idx.hi0 idx.n0 p0 = idx.n0 - 1) ∧
    (∀ (c : CompositeNavigationPolicy) (q : NavQuery),
      ∃ l : List Surface, c.candidates q = (l, c)) := by
  refine ⟨?_, ?_, fun h => binIndexQ_le_low idx.lo0 idx.hi0 p0 idx.n0 h,
    fun ha hb => binIndexQ_ge_high idx.lo0 idx.hi0 p0 idx.n0 ha h0 hb,
    fun c q => ⟨compositeQuery c.subPolicies c.volume q, rfl⟩⟩
  · unfold SpatialBinIndex.query
    rw [← binIndexQ_clamp idx.lo0 idx.hi0 p0 idx.n0 h0,
      ← binIndexQ_clamp idx.lo1 idx.hi1 p1 idx.n1 h1]
  · intro h
    unfold SpatialBinIndex.query
    apply flatMap_nil_of_all
    intro i hi_
    apply flatMap_nil_of_all
    intro j hj_
    exact h i j hi_ hj_

/-- Witness for query_total at a concrete index and an out-of-extent query
point below the lower edge, which resolves to cell zero. -/
theorem query_total_witness :
    (0 < 2 ∧ 0 < 2 ∧ (-1 : ℚ) ≤ 0) ∧ binIndexQ 0 1 2 (-1) = 0 :=
  ⟨⟨by decide, by decide, by decide⟩,
   (query_total ⟨2, 2, 0, 1, 0, 1, []⟩ (-1) 3
     (by decide) (by decide)).2.2.1 (by decide)⟩

end ActsNav
